import Mathlib

set_option autoImplicit false

/-!
Verification development for the CIFAR-10 training notebook
(`CSC2516_Homework_5_VishnouVINAYAGAME.ipynb`).

The notebook is embedded shallowly: its hyperparameter constants, the
gradient-clipping and SGD update of the training loop (cell 12), the
`OneCycleLR` learning-rate schedule (cell 11), the overall-accuracy loops
(cells 13 and 14), the per-class accuracy loop (cell 15), the data
transforms (cells 6 and 7), and the `ResNet9` module with its dropout
layers (cell 8).  Library components (convolutions, batch norm, pooling,
linear layers) are deterministic functions supplied as parameters; the
code the notebook itself writes is modelled directly.
-/

namespace CIFAR

/-- Batch size, cell 5 of the notebook. -/
def batch_size : ℕ := 100

/-- Number of epochs, cell 10. -/
def num_epochs : ℕ := 40

/-- Momentum hyperparameter, cell 10. -/
def momentum : ℚ := 9/10

/-- Weight decay hyperparameter, cell 10. -/
def weight_decay : ℚ := 1/2000

/-- Gradient clip bound, cell 10. -/
def grad_clip : ℚ := 1/10

/-- Scalar clamp to the interval from lo to hi, the elementwise operation
performed by `torch.clamp` underlying `clip_grad_value_`. -/
def clampQ (lo hi x : ℚ) : ℚ := min (max x lo) hi

/-- `nn.utils.clip_grad_value_(params, c)` on a flattened gradient vector:
every component is clamped to the interval from `-c` to `c`. -/
def clip_grad_value (c : ℚ) (g : List ℚ) : List ℚ := g.map (clampQ (-c) c)

/-- The gradient vector actually passed to `optimizer.step()` in cell 12:
the clipping call is guarded by the Python truthiness test `if grad_clip:`,
which fires exactly when `grad_clip` is nonzero. -/
def gradsForUpdate (g : List ℚ) : List ℚ :=
  if grad_clip = 0 then g else clip_grad_value grad_clip g

/-- One `torch.optim.SGD` update with momentum and weight decay (cell 11;
no dampening, no Nesterov): the decayed gradient is `g + weight_decay * p`,
the momentum buffer becomes `momentum * v + d`, and the parameter moves by
`-lr` times the new buffer.  Returns the new parameters and buffers. -/
def sgdUpdate (lr : ℚ) (p v g : List ℚ) : List ℚ × List ℚ :=
  let d := List.zipWith (fun gi pi => gi + weight_decay * pi) g p
  let v' := List.zipWith (fun vi di => momentum * vi + di) v d
  (List.zipWith (fun pi vi => pi - lr * vi) p v', v')

/-- Mutable state of the training run: flattened model parameters, the
optimizer's momentum buffers, the scheduler's internal step count
(`last_epoch`), and an index into the stream of random draws consumed by
the dropout layers. -/
structure TrainState where
  params : List ℚ
  vel : List ℚ
  sched : ℕ
  rng : ℕ

/-- State at the start of cell 12: freshly built model parameters `p`,
zero momentum buffers, scheduler step count zero. -/
def initialTrainState (p : List ℚ) : TrainState :=
  ⟨p, p.map (fun _ => 0), 0, 0⟩

/-- Body of one training iteration of cell 12 between `loss.backward()` and
`optimizer.step()`: the gradient `g` produced by backward is clipped (when
`grad_clip` is truthy) and only then used for the SGD update. -/
def trainStep (lr : ℚ) (s : TrainState) (g : List ℚ) : TrainState :=
  let gc := gradsForUpdate g
  let pv := sgdUpdate lr s.params s.vel gc
  { s with params := pv.1, vel := pv.2 }

/-- `scheduler.step()`, executed once per batch in cell 12 after the
optimizer update: the scheduler's internal step count advances by one. -/
def schedulerStep (s : TrainState) : TrainState := { s with sched := s.sched + 1 }

/-- `len(loader)` for a `DataLoader` with `drop_last=False` over `n`
samples at batch size `b`: the number of batches, counting a ragged final
batch (ceiling division). -/
def numBatches (n b : ℕ) : ℕ := (n + b - 1) / b

/-- One epoch of cell 12: iterate over the epoch's batches in order; for
each batch a training step followed by exactly one scheduler step.  The
learning rate and the backward-pass gradient of each global step are
supplied as functions of the scheduler's step count. -/
def runEpoch (lrF : ℕ → ℚ) (gradF : ℕ → List ℚ) (nb : ℕ) (s : TrainState) : TrainState :=
  (List.range nb).foldl
    (fun st _ => schedulerStep (trainStep (lrF st.sched) st (gradF st.sched))) s

/-- The full training loop of cell 12: `epochs` epochs, each iterating the
train loader once. -/
def trainingRun (lrF : ℕ → ℚ) (gradF : ℕ → List ℚ) (epochs nb : ℕ) (s : TrainState) :
    TrainState :=
  (List.range epochs).foldl (fun st _ => runEpoch lrF gradF nb st) s

theorem trainStep_sched (lr : ℚ) (s : TrainState) (g : List ℚ) :
    (trainStep lr s g).sched = s.sched := rfl

theorem schedulerStep_sched (s : TrainState) :
    (schedulerStep s).sched = s.sched + 1 := rfl

theorem sched_runEpoch (lrF : ℕ → ℚ) (gradF : ℕ → List ℚ) (nb : ℕ) (s : TrainState) :
    (runEpoch lrF gradF nb s).sched = s.sched + nb := by
  have h : ∀ (l : List ℕ) (st : TrainState),
      ((l.foldl
        (fun st _ => schedulerStep (trainStep (lrF st.sched) st (gradF st.sched))) st).sched
        = st.sched + l.length) := by
    intro l
    induction l with
    | nil => intro st; simp
    | cons a t ih =>
        intro st
        rw [List.foldl_cons, ih, schedulerStep_sched, trainStep_sched, List.length_cons]
        omega
  simpa [runEpoch] using h (List.range nb) s

theorem sched_trainingRun (lrF : ℕ → ℚ) (gradF : ℕ → List ℚ) (epochs nb : ℕ)
    (s : TrainState) :
    (trainingRun lrF gradF epochs nb s).sched = s.sched + epochs * nb := by
  have h : ∀ (l : List ℕ) (st : TrainState),
      ((l.foldl (fun st _ => runEpoch lrF gradF nb st) st).sched
        = st.sched + l.length * nb) := by
    intro l
    induction l with
    | nil => intro st; simp
    | cons a t ih =>
        intro st
        rw [List.foldl_cons, ih, sched_runEpoch, List.length_cons]
        ring
  simpa [trainingRun] using h (List.range epochs) s

/-- C5: the scheduler is stepped exactly once per training batch, so over
the 50,000-sample train split at batch size 100 an epoch performs exactly
500 scheduler steps (`numBatches 50000 100 = 500`), and after the 40
epochs of the run the scheduler's internal step count is exactly 20,000,
for every realisation of the learning rates and gradients. -/
theorem scheduler_count_after_run (lrF : ℕ → ℚ) (gradF : ℕ → List ℚ) (p : List ℚ) :
    numBatches 50000 batch_size = 500 ∧
    (trainingRun lrF gradF num_epochs (numBatches 50000 batch_size)
      (initialTrainState p)).sched = 20000 := by
  constructor
  · decide
  · rw [sched_trainingRun]
    simp [initialTrainState, num_epochs, numBatches, batch_size]

/-- C4: in every training step the clipping is applied (the guard
`if grad_clip:` is true since `grad_clip = 0.1` is nonzero), each component
of the gradient used at the moment of the parameter update lies in the
interval from `-0.1` to `0.1`, and the update consumes exactly the clipped
gradient. -/
theorem grad_clip_bounds (lr : ℚ) (s : TrainState) (g : List ℚ) (x : ℚ)
    (hx : x ∈ gradsForUpdate g) :
    (-(1/10) ≤ x ∧ x ≤ 1/10) ∧
      (trainStep lr s g).params = (sgdUpdate lr s.params s.vel (gradsForUpdate g)).1 := by
  refine ⟨?_, rfl⟩
  have hval : gradsForUpdate g = clip_grad_value grad_clip g := by
    rw [gradsForUpdate, if_neg (by norm_num [grad_clip])]
  rw [hval, clip_grad_value, List.mem_map] at hx
  obtain ⟨gi, -, rfl⟩ := hx
  unfold clampQ grad_clip
  constructor
  · exact le_min (le_max_right _ _) (by norm_num)
  · exact min_le_right _ _

/-- Witness for C4 at the concrete gradient vector `[1]`: the clipped
component is `0.1`, which satisfies the bounds. -/
theorem grad_clip_bounds_witness :
    (-(1/10 : ℚ) ≤ 1/10 ∧ (1/10 : ℚ) ≤ 1/10) ∧
      (trainStep 1 (initialTrainState [1]) [1]).params
        = (sgdUpdate 1 (initialTrainState [1]).params (initialTrainState [1]).vel
            (gradsForUpdate [1])).1 := by
  have hmax : max (1 : ℚ) (-(1/10)) = 1 := max_eq_left (by norm_num)
  have hmin : min (1 : ℚ) (1/10) = 1/10 := min_eq_right (by norm_num)
  have h1 : gradsForUpdate [1] = [1/10] := by
    rw [gradsForUpdate, if_neg (by norm_num [grad_clip])]
    norm_num [clip_grad_value, clampQ, grad_clip, min_def, max_def]
  exact grad_clip_bounds 1 (initialTrainState [1]) [1] (1/10)
    (by rw [h1]; exact List.mem_singleton.mpr rfl)

/-- Helper for `torch.max(outputs, 1)` on one row: scan the remaining
entries, keeping the best value and the index of its first occurrence. -/
def argmaxAux : List ℚ → ℕ → ℕ → ℚ → ℕ
  | [], _, bi, _ => bi
  | x :: xs, i, bi, bv => if bv < x then argmaxAux xs (i + 1) i x else argmaxAux xs (i + 1) bi bv

/-- Index returned by `torch.max(outputs, 1)` for one row of scores: the
index of the first maximal entry. -/
def argmaxIdx : List ℚ → ℕ
  | [] => 0
  | x :: xs => argmaxAux xs 1 0 x

/-- One iteration of the accuracy loops of cells 13 and 14, run under
`torch.no_grad()`: the forward pass computes scores from the current
parameters (the module is still in training mode, so the batch forward
consumes one fresh set of dropout draws and the rng index advances),
`predicted` is the per-row arg-max, `total` grows by `labels.size(0)` and
`correct` by the number of matches.  Nothing writes the parameters, the
momentum buffers or the scheduler count. -/
def evalBatch {α : Type} (modelOut : List ℚ → ℕ → α → List ℚ)
    (acc : (ℕ × ℕ) × TrainState) (b : List α × List (Fin 10)) : (ℕ × ℕ) × TrainState :=
  let s := acc.2
  let preds := b.1.map (fun im => argmaxIdx (modelOut s.params s.rng im))
  let hits := (List.zip preds (b.2.map Fin.val)).countP (fun pr => pr.1 = pr.2)
  ((acc.1.1 + hits, acc.1.2 + b.2.length), { s with rng := s.rng + 1 })

/-- A whole accuracy pass (cell 13 over the train loader, cell 14 over the
test loader): fold the batch loop from zero counts. -/
def evalRun {α : Type} (modelOut : List ℚ → ℕ → α → List ℚ) (s : TrainState)
    (batches : List (List α × List (Fin 10))) : (ℕ × ℕ) × TrainState :=
  batches.foldl (evalBatch modelOut) ((0, 0), s)

theorem evalRun_state_aux {α : Type} (modelOut : List ℚ → ℕ → α → List ℚ)
    (batches : List (List α × List (Fin 10))) :
    ∀ acc : (ℕ × ℕ) × TrainState,
      (batches.foldl (evalBatch modelOut) acc).2.params = acc.2.params ∧
      (batches.foldl (evalBatch modelOut) acc).2.vel = acc.2.vel ∧
      (batches.foldl (evalBatch modelOut) acc).2.sched = acc.2.sched := by
  induction batches with
  | nil => intro acc; exact ⟨rfl, rfl, rfl⟩
  | cons b t ih =>
      intro acc
      rw [List.foldl_cons]
      exact (ih (evalBatch modelOut acc b))

/-- C9: both evaluation passes are read-only on the model parameters: the
accuracy pass over the train loader and the one over the test loader leave
the parameters, the momentum buffers and the scheduler count of the state
unchanged (only the dropout rng advances), while a training step changes
the parameters exactly through the optimizer's SGD update applied to the
clipped gradient. -/
theorem eval_passes_leave_params_unchanged {α : Type}
    (modelOut : List ℚ → ℕ → α → List ℚ) (s : TrainState)
    (trainPipeline testPipeline : List (List α × List (Fin 10))) :
    ((evalRun modelOut s trainPipeline).2.params = s.params ∧
      (evalRun modelOut s trainPipeline).2.vel = s.vel ∧
      (evalRun modelOut s trainPipeline).2.sched = s.sched) ∧
    ((evalRun modelOut s testPipeline).2.params = s.params ∧
      (evalRun modelOut s testPipeline).2.vel = s.vel ∧
      (evalRun modelOut s testPipeline).2.sched = s.sched) ∧
    (∀ (lr : ℚ) (g : List ℚ),
      (trainStep lr s g).params = (sgdUpdate lr s.params s.vel (gradsForUpdate g)).1) :=
  ⟨evalRun_state_aux modelOut trainPipeline ((0, 0), s),
   evalRun_state_aux modelOut testPipeline ((0, 0), s),
   fun _ _ => rfl⟩

/-- Total number of scheduler steps declared to `OneCycleLR` in cell 11:
`steps_per_epoch = len(trainloader)` and `epochs = num_epochs`. -/
def total_steps : ℕ := num_epochs * numBatches 50000 batch_size

/-- Peak learning rate `max_lr=0.1` passed to `OneCycleLR` in cell 11. -/
noncomputable def max_lr : ℝ := 1/10

/-- Start learning rate of the cycle: `max_lr / div_factor` with the
default `div_factor = 25`. -/
noncomputable def initial_lr : ℝ := max_lr / 25

/-- Floor of the cycle: `initial_lr / final_div_factor` with the default
`final_div_factor = 1e4`. -/
noncomputable def min_lr : ℝ := initial_lr / 10000

/-- Cosine annealing between two rates, `OneCycleLR._annealing_cos`. -/
noncomputable def annealCos (s e pct : ℝ) : ℝ :=
  e + (s - e) / 2 * (1 + Real.cos (Real.pi * pct))

/-- Last step of the warm-up phase: `float(pct_start * total_steps) - 1`
with the default `pct_start = 0.3`. -/
noncomputable def phase1_end : ℝ := 3/10 * (total_steps : ℝ) - 1

/-- `OneCycleLR.get_lr` at internal step count `n` (default two-phase
cosine strategy): anneal from `initial_lr` up to `max_lr` over the first
phase, then from `max_lr` down to `min_lr` over the second. -/
noncomputable def onecycle_lr (n : ℕ) : ℝ :=
  if (n : ℝ) ≤ phase1_end then
    annealCos initial_lr max_lr ((n : ℝ) / phase1_end)
  else
    annealCos max_lr min_lr (((n : ℝ) - phase1_end) / (((total_steps : ℝ) - 1) - phase1_end))

theorem total_steps_eq : total_steps = 20000 := by decide

theorem phase1_end_eq : phase1_end = 5999 := by
  rw [phase1_end, total_steps_eq]; norm_num

theorem onecycle_lr_phase1 (n : ℕ) (h : n ≤ 5999) :
    onecycle_lr n = annealCos initial_lr max_lr ((n : ℝ) / 5999) := by
  rw [onecycle_lr, phase1_end_eq, if_pos (by exact_mod_cast h)]

theorem onecycle_lr_phase2 (n : ℕ) (h : 6000 ≤ n) :
    onecycle_lr n = annealCos max_lr min_lr (((n : ℝ) - 5999) / 14000) := by
  rw [onecycle_lr, phase1_end_eq, total_steps_eq,
    if_neg (by
      have hr : (6000 : ℝ) ≤ (n : ℝ) := by exact_mod_cast h
      simp only [not_le]
      linarith)]
  norm_num

theorem annealCos_zero (s e : ℝ) : annealCos s e 0 = s := by
  simp [annealCos, Real.cos_zero]; ring

theorem annealCos_one (s e : ℝ) : annealCos s e 1 = e := by
  simp [annealCos, Real.cos_pi]

theorem annealCos_lt (s e p q : ℝ) (hs : s < e) (hp : 0 ≤ p) (hpq : p < q) (hq : q ≤ 1) :
    annealCos s e p < annealCos s e q := by
  have hcos : Real.cos (Real.pi * q) < Real.cos (Real.pi * p) := by
    apply Real.cos_lt_cos_of_nonneg_of_le_pi
    · exact mul_nonneg Real.pi_pos.le hp
    · exact mul_le_of_le_one_right Real.pi_pos.le hq
    · exact mul_lt_mul_of_pos_left hpq Real.pi_pos
  have hc : (s - e) / 2 < 0 := by linarith
  have hmul := mul_lt_mul_of_neg_left (add_lt_add_left hcos 1) hc
  unfold annealCos
  linarith [hmul]

theorem annealCos_gt (s e p q : ℝ) (hs : e < s) (hp : 0 ≤ p) (hpq : p < q) (hq : q ≤ 1) :
    annealCos s e q < annealCos s e p := by
  have hcos : Real.cos (Real.pi * q) < Real.cos (Real.pi * p) := by
    apply Real.cos_lt_cos_of_nonneg_of_le_pi
    · exact mul_nonneg Real.pi_pos.le hp
    · exact mul_le_of_le_one_right Real.pi_pos.le hq
    · exact mul_lt_mul_of_pos_left hpq Real.pi_pos
  have hc : 0 < (s - e) / 2 := by linarith
  have hmul := mul_lt_mul_of_pos_left (add_lt_add_left hcos 1) hc
  unfold annealCos
  linarith [hmul]

theorem onecycle_lr_peak : onecycle_lr 5999 = max_lr := by
  rw [onecycle_lr_phase1 5999 le_rfl]
  norm_num [annealCos_one]

/-- C6: the learning-rate schedule is one single cycle over the 20,000
total steps: its value at step 0 is `max_lr / 25` (the low start of the
cycle), it rises strictly up to the configured peak `max_lr = 0.1`,
reached at step 5999 (thirty percent of the run), and from there decays
strictly down to `max_lr / 250000` at the last step 19999, a value below
`10 ^ (-6)`. -/
theorem onecycle_single_cycle :
    total_steps = 20000 ∧
    onecycle_lr 0 = max_lr / 25 ∧
    onecycle_lr 5999 = max_lr ∧
    max_lr = 1/10 ∧
    onecycle_lr 19999 = 1/2500000 ∧
    (∀ m n : ℕ, m < n → n ≤ 5999 → onecycle_lr m < onecycle_lr n) ∧
    (∀ m n : ℕ, 5999 ≤ m → m < n → n ≤ 19999 → onecycle_lr n < onecycle_lr m) := by
  refine ⟨total_steps_eq, ?_, onecycle_lr_peak, rfl, ?_, ?_, ?_⟩
  · rw [onecycle_lr_phase1 0 (by norm_num)]
    norm_num [annealCos_zero, initial_lr]
  · rw [onecycle_lr_phase2 19999 (by norm_num)]
    norm_num [annealCos_one, min_lr, initial_lr, max_lr]
  · intro m n hmn hn
    rw [onecycle_lr_phase1 m (by omega), onecycle_lr_phase1 n hn]
    apply annealCos_lt
    · rw [initial_lr, max_lr]; norm_num
    · positivity
    · apply div_lt_div_of_pos_right ?_ (by norm_num)
      exact_mod_cast hmn
    · rw [div_le_one (by norm_num)]
      exact_mod_cast hn
  · intro m n hm hmn hn
    have hform : ∀ k : ℕ, 5999 ≤ k → k ≤ 19999 →
        onecycle_lr k = annealCos max_lr min_lr (((k : ℝ) - 5999) / 14000) := by
      intro k hk1 hk2
      rcases Nat.eq_or_lt_of_le hk1 with h | h
      · rw [← h, onecycle_lr_peak]
        norm_num [annealCos_zero]
      · exact onecycle_lr_phase2 k h
    rw [hform m hm (by omega), hform n (by omega) hn]
    apply annealCos_gt
    · rw [min_lr, initial_lr, max_lr]; norm_num
    · have : (5999 : ℝ) ≤ (m : ℝ) := by exact_mod_cast hm
      have h14 : (0 : ℝ) < 14000 := by norm_num
      apply div_nonneg (by linarith) h14.le
    · apply div_lt_div_of_pos_right ?_ (by norm_num)
      have : (m : ℝ) < (n : ℝ) := by exact_mod_cast hmn
      linarith
    · rw [div_le_one (by norm_num)]
      have : (n : ℝ) ≤ 19999 := by exact_mod_cast hn
      linarith

/-- Witness for C6 at concrete steps: the start value, one strictly
rising pair inside the warm-up phase and one strictly falling pair inside
the decay phase. -/
theorem onecycle_single_cycle_witness :
    onecycle_lr 0 = max_lr / 25 ∧
    onecycle_lr 100 < onecycle_lr 200 ∧
    onecycle_lr 8000 < onecycle_lr 7000 :=
  ⟨onecycle_single_cycle.2.1,
   onecycle_single_cycle.2.2.2.2.2.1 100 200 (by norm_num) (by norm_num),
   onecycle_single_cycle.2.2.2.2.2.2 7000 8000 (by norm_num) (by norm_num) (by norm_num)⟩

/-- One iteration of the loop `for i in range(batch_size)` of cell 15:
read `labels[i]` and `c[i]` and bump `class_correct[label]` and
`class_total[label]` (two Python lists of length 10).  An index past the
end of the batch tensors is an out-of-bounds access, modelled as `none`. -/
def perClassStep (predicted : List ℕ) (labels : List (Fin 10)) (s : List ℚ × List ℕ)
    (i : ℕ) : Option (List ℚ × List ℕ) :=
  match labels[i]?, predicted[i]? with
  | some l, some p =>
      some (s.1.set l.val (s.1.getD l.val 0 + if p = l.val then 1 else 0),
            s.2.set l.val (s.2.getD l.val 0 + 1))
  | _, _ => none

/-- The per-batch loop of cell 15: `i` ranges over the fixed global
`batch_size = 100`, not over the actual length of the batch. -/
def perClassBatch (predicted : List ℕ) (labels : List (Fin 10)) (s : List ℚ × List ℕ) :
    Option (List ℚ × List ℕ) :=
  (List.range batch_size).foldlM (fun t i => perClassStep predicted labels t i) s

/-- Cell 15 over every test batch: predictions are the per-row arg-max of
the model outputs, and the two accumulator lists start at zero. -/
def perClassRun {α : Type} (modelOut : α → List ℚ)
    (batches : List (List α × List (Fin 10))) : Option (List ℚ × List ℕ) :=
  batches.foldlM
    (fun s b => perClassBatch (b.1.map (fun im => argmaxIdx (modelOut im))) b.2 s)
    (List.replicate 10 0, List.replicate 10 0)

/-- The `class_total` bookkeeping in isolation: one increment at the label
index for each sample of the list. -/
def tallyLabels (ls : List (Fin 10)) (ct : List ℕ) : List ℕ :=
  ls.foldl (fun acc l => acc.set l.val (acc.getD l.val 0 + 1)) ct

theorem tallyLabels_append (a b : List (Fin 10)) (ct : List ℕ) :
    tallyLabels (a ++ b) ct = tallyLabels b (tallyLabels a ct) := by
  simp [tallyLabels]

theorem tallyLabels_length (ls : List (Fin 10)) :
    ∀ ct : List ℕ, (tallyLabels ls ct).length = ct.length := by
  induction ls with
  | nil => intro ct; rfl
  | cons l t ih =>
      intro ct
      rw [tallyLabels, List.foldl_cons]
      have := ih (ct.set l.val (ct.getD l.val 0 + 1))
      rw [tallyLabels] at this
      rw [this, List.length_set]

theorem getD_set_self (l : List ℕ) (i v : ℕ) (h : i < l.length) :
    (l.set i v).getD i 0 = v := by
  simp [List.getD_eq_getElem?_getD, List.getElem?_set, h]

theorem getD_set_ne (l : List ℕ) (i j v : ℕ) (h : i ≠ j) :
    (l.set i v).getD j 0 = l.getD j 0 := by
  simp [List.getD_eq_getElem?_getD, List.getElem?_set, h]

theorem tallyLabels_getD (ls : List (Fin 10)) :
    ∀ ct : List ℕ, ct.length = 10 → ∀ c : Fin 10,
      (tallyLabels ls ct).getD c.val 0 = ct.getD c.val 0 + ls.count c := by
  induction ls with
  | nil => intro ct _ c; simp [tallyLabels]
  | cons l t ih =>
      intro ct hlen c
      have hstep : tallyLabels (l :: t) ct = tallyLabels t (ct.set l.val (ct.getD l.val 0 + 1)) := by
        rw [tallyLabels, List.foldl_cons]; rfl
      rw [hstep, ih _ (by rw [List.length_set, hlen]) c]
      by_cases hc : c = l
      · subst hc
        rw [getD_set_self _ _ _ (by rw [hlen]; exact c.isLt)]
        simp [List.count_cons]
        omega
      · have hne : l.val ≠ c.val := fun h => hc (Fin.ext h.symm)
        rw [getD_set_ne _ _ _ _ hne]
        have : t.count c + (if l = c then 1 else 0) = t.count c := by
          simp [Ne.symm hc]
        simp [List.count_cons, Ne.symm hc]

theorem perClassFold_some (pred : List ℕ) (labels : List (Fin 10)) :
    ∀ (n : ℕ), n ≤ labels.length → n ≤ pred.length → ∀ (s : List ℚ × List ℕ),
      ∃ cc, (List.range n).foldlM (fun t i => perClassStep pred labels t i) s
        = some (cc, tallyLabels (labels.take n) s.2) := by
  intro n
  induction n with
  | zero => intro _ _ s; exact ⟨s.1, by simp [tallyLabels]⟩
  | succ n ih =>
      intro hl hp s
      obtain ⟨cc, hcc⟩ := ih (by omega) (by omega) s
      have hln : n < labels.length := by omega
      have hpn : n < pred.length := by omega
      refine ⟨cc.set labels[n].val
        (cc.getD labels[n].val 0 + if pred[n] = labels[n].val then 1 else 0), ?_⟩
      have hstep : perClassStep pred labels (cc, tallyLabels (labels.take n) s.2) n
          = some (cc.set labels[n].val
              (cc.getD labels[n].val 0 + if pred[n] = labels[n].val then 1 else 0),
            (tallyLabels (labels.take n) s.2).set labels[n].val
              ((tallyLabels (labels.take n) s.2).getD labels[n].val 0 + 1)) := by
        rw [perClassStep, List.getElem?_eq_getElem hln, List.getElem?_eq_getElem hpn]
      have htake : labels.take (n + 1) = labels.take n ++ [labels[n]] := by
        rw [List.take_succ, List.getElem?_eq_getElem hln]
        rfl
      have htally : tallyLabels (labels.take (n + 1)) s.2
          = (tallyLabels (labels.take n) s.2).set labels[n].val
              ((tallyLabels (labels.take n) s.2).getD labels[n].val 0 + 1) := by
        rw [htake, tallyLabels_append]
        rfl
      rw [List.range_succ, List.foldlM_append, hcc, htally]
      simp [hstep]

theorem perClassBatch_some (pred : List ℕ) (labels : List (Fin 10))
    (hl : labels.length = 100) (hp : pred.length = 100) (s : List ℚ × List ℕ) :
    ∃ cc, perClassBatch pred labels s = some (cc, tallyLabels labels s.2) := by
  obtain ⟨cc, hcc⟩ := perClassFold_some pred labels 100 (by omega) (by omega) s
  refine ⟨cc, ?_⟩
  rw [perClassBatch, batch_size, hcc, ← hl, List.take_length]

theorem perClassRun_some {α : Type} (modelOut : α → List ℚ)
    (batches : List (List α × List (Fin 10))) :
    ∀ s : List ℚ × List ℕ,
      (∀ b ∈ batches, b.1.length = 100 ∧ b.2.length = 100) →
      ∃ cc, batches.foldlM
          (fun s b => perClassBatch (b.1.map (fun im => argmaxIdx (modelOut im))) b.2 s) s
        = some (cc, tallyLabels (batches.map Prod.snd).flatten s.2) := by
  induction batches with
  | nil => intro s _; exact ⟨s.1, by simp [tallyLabels]⟩
  | cons b t ih =>
      intro s hb
      obtain ⟨hb1, hb2⟩ := hb b (by simp)
      obtain ⟨cc1, hc1⟩ := perClassBatch_some (b.1.map (fun im => argmaxIdx (modelOut im)))
        b.2 hb2 (by rw [List.length_map, hb1]) s
      obtain ⟨cc2, hc2⟩ := ih (cc1, tallyLabels b.2 s.2)
        (fun x hx => hb x (List.mem_cons_of_mem _ hx))
      refine ⟨cc2, ?_⟩
      rw [List.foldlM_cons, hc1]
      simp only [Option.bind_eq_bind, Option.some_bind] at hc2 ⊢
      rw [hc2]
      simp [tallyLabels_append]

/-- C8: when cell 15 runs over a test pipeline of full batches of exactly
100 samples whose labels realise the reference dataset's fixed 1,000
occurrences of each of the ten classes, the loop completes, every entry of
`class_total` equals 1,000, and the ten entries sum to the test-set size
10,000 — whatever the model predicts. -/
theorem per_class_totals {α : Type} (modelOut : α → List ℚ)
    (batches : List (List α × List (Fin 10)))
    (hb : ∀ b ∈ batches, b.1.length = 100 ∧ b.2.length = 100)
    (hcount : ∀ c : Fin 10, (batches.map Prod.snd).flatten.count c = 1000) :
    ∃ cc ct, perClassRun modelOut batches = some (cc, ct) ∧
      (∀ c : Fin 10, ct.getD c.val 0 = 1000) ∧ ct.sum = 10000 := by
  obtain ⟨cc, hcc⟩ :=
    perClassRun_some modelOut batches (List.replicate 10 0, List.replicate 10 0) hb
  have hz : (List.replicate 10 (0 : ℕ)).length = 10 := by simp
  have hgd : ∀ c : Fin 10,
      (tallyLabels (batches.map Prod.snd).flatten (List.replicate 10 0)).getD c.val 0
        = 1000 := by
    intro c
    rw [tallyLabels_getD _ _ hz c, hcount c]
    have hrep : (List.replicate 10 (0 : ℕ)).getD c.val 0 = 0 := by
      rw [List.getD_eq_getElem _ _ (by simp), List.getElem_replicate]
    rw [hrep]
  refine ⟨cc, _, hcc, hgd, ?_⟩
  have hlen : (tallyLabels (batches.map Prod.snd).flatten (List.replicate 10 0)).length
      = 10 := by
    rw [tallyLabels_length, hz]
  have heq : tallyLabels (batches.map Prod.snd).flatten (List.replicate 10 0)
      = List.replicate 10 1000 := by
    apply List.ext_getElem (by rw [hlen, List.length_replicate])
    intro i h1 h2
    have hi : i < 10 := by omega
    have := hgd ⟨i, hi⟩
    rw [List.getD_eq_getElem _ _ (by omega)] at this
    rw [this, List.getElem_replicate]
  rw [heq]
  simp [List.sum_replicate]

/-- One batch of labels for the witness of C8: every class ten times. -/
def witnessLabels : List (Fin 10) :=
  (List.finRange 10).flatMap (fun c => List.replicate 10 c)

/-- Witness test pipeline for C8: one hundred batches of 100 samples, so
each class occurs exactly 1,000 times in total. -/
def witnessBatches : List (List Unit × List (Fin 10)) :=
  List.replicate 100 (List.replicate 100 (), witnessLabels)

theorem count_flatten_replicate (n : ℕ) (l : List (Fin 10)) (c : Fin 10) :
    ((List.replicate n l).flatten).count c = n * l.count c := by
  induction n with
  | zero => simp
  | succ n ih =>
      rw [List.replicate_succ, List.flatten_cons, List.count_append, ih]
      ring

/-- Witness for C8: the concrete balanced pipeline satisfies the two
hypotheses and the per-class totals come out as claimed. -/
theorem per_class_totals_witness :
    ∃ cc ct, perClassRun (fun _ : Unit => ([] : List ℚ)) witnessBatches = some (cc, ct) ∧
      (∀ c : Fin 10, ct.getD c.val 0 = 1000) ∧ ct.sum = 10000 := by
  apply per_class_totals
  · intro b hb
    rw [List.eq_of_mem_replicate hb]
    refine ⟨by simp, ?_⟩
    show witnessLabels.length = 100
    decide
  · intro c
    have h1 : witnessBatches.map Prod.snd = List.replicate 100 witnessLabels := by
      simp [witnessBatches]
    rw [h1, count_flatten_replicate]
    have h2 : ∀ d : Fin 10, witnessLabels.count d = 10 := by decide
    rw [h2 c]

/-- C3 fails on the code: on a ragged final batch of 50 samples the
per-class loop of cell 15 still runs `for i in range(100)`, and the read
of `labels[50]` is out of bounds, so the loop cannot complete and count
each sample exactly once. -/
theorem per_class_ragged_out_of_bounds :
    perClassBatch (List.replicate 50 0) (List.replicate 50 (0 : Fin 10))
      (List.replicate 10 0, List.replicate 10 0) = none := by
  decide

/-- The torch module mode flag: training mode or eval mode. -/
inductive Mode
  | train
  | eval
deriving DecidableEq

/-- `nn.Dropout(p)` applied to a flat activation vector with the keep mask
drawn for this call: in training mode every kept activation is rescaled by
`1 / (1 - p)` and every dropped one becomes zero; in eval mode the layer
is the identity. -/
def dropout (p : ℚ) (mode : Mode) (mask : List Bool) (x : List ℚ) : List ℚ :=
  match mode with
  | .eval => x
  | .train => List.zipWith (fun v b => if b then v / (1 - p) else 0) x mask

/-- `nn.ReLU` on a flat activation vector. -/
def relu (x : List ℚ) : List ℚ := x.map (fun v => if v ≤ 0 then 0 else v)

/-- Elementwise tensor addition, the residual skip of `forward`. -/
def addVec (a b : List ℚ) : List ℚ := List.zipWith (fun u v => u + v) a b

/-- The `ResNet9` module of cell 8.  The eight `conv_block` instances
(convolution, batch norm, ReLU, optional max-pool — library kernels whose
learned parameters live inside), the classifier's max-pool and its three
linear layers are deterministic functions on flattened activations; the
dropout layers, whose behaviour depends on the module's mode flag and on
random draws, are made explicit in `ResNet9.forward`. -/
structure ResNet9 where
  conv1 : List ℚ → List ℚ
  conv2 : List ℚ → List ℚ
  res1a : List ℚ → List ℚ
  res1b : List ℚ → List ℚ
  conv3 : List ℚ → List ℚ
  conv4 : List ℚ → List ℚ
  res2a : List ℚ → List ℚ
  res2b : List ℚ → List ℚ
  maxpool4 : List ℚ → List ℚ
  lin1 : List ℚ → List ℚ
  lin2 : List ℚ → List ℚ
  lin3 : List ℚ → List ℚ

/-- The keep masks consumed by the four dropout layers in one forward
call: `res1`, `res2`, and the two classifier dropouts. -/
structure DropMasks where
  m1 : List Bool
  m2 : List Bool
  m3 : List Bool
  m4 : List Bool

/-- `ResNet9.forward` of cell 8, with the module's mode flag propagated to
every dropout layer: conv1, conv2, residual block 1 (p=0.3 dropout) plus
skip, conv3, conv4, residual block 2 (p=0.3 dropout) plus skip, then the
classifier: dropout p=0.5, max-pool, flatten (identity on the flat
encoding), linear, ReLU, linear, ReLU, dropout p=0.5, linear. -/
def ResNet9.forward (net : ResNet9) (mode : Mode) (mk : DropMasks) (xb : List ℚ) : List ℚ :=
  let o1 := net.conv1 xb
  let o2 := net.conv2 o1
  let o3 := addVec (dropout (3/10) mode mk.m1 (net.res1b (net.res1a o2))) o2
  let o4 := net.conv3 o3
  let o5 := net.conv4 o4
  let o6 := addVec (dropout (3/10) mode mk.m2 (net.res2b (net.res2a o5))) o5
  let o7 := dropout (1/2) mode mk.m3 o6
  let o8 := net.maxpool4 o7
  let o9 := relu (net.lin1 o8)
  let o10 := relu (net.lin2 o9)
  let o11 := dropout (1/2) mode mk.m4 o10
  net.lin3 o11

/-- An instantiated module: the network plus the `nn.Module` training
flag. -/
structure ModuleState where
  net : ResNet9
  training : Bool

/-- `model = ResNet9(3, 10)` in cell 9: a torch module is constructed with
`training = True`. -/
def mkModel (net : ResNet9) : ModuleState := ⟨net, true⟩

/-- Effect of the training loop of cell 12 on the module: the optimizer
replaces the learned parameters (here the bundle of layer functions); no
statement of the notebook calls `model.train()` or `model.eval()`, so the
training flag is left as constructed. -/
def afterTraining (m : ModuleState) (trainedNet : ResNet9) : ModuleState :=
  { m with net := trainedNet }

/-- The mode a forward pass of module `m` runs in. -/
def modeOf (m : ModuleState) : Mode := if m.training then Mode.train else Mode.eval

/-- The overall-accuracy loop of cells 13/14 phrased on the module: each
scored sample gets one forward pass in the module's current mode,
consuming the next dropout draw of the run; `predicted` is the per-row
arg-max; the accumulator is (correct, total, consumed draws). -/
def moduleEvalPass (m : ModuleState) (draws : ℕ → DropMasks)
    (batches : List (List (List ℚ) × List ℕ)) : ℕ × ℕ × ℕ :=
  batches.foldl
    (fun acc b =>
      let preds := (b.1.zip (List.range' acc.2.2 b.1.length)).map
        (fun p => argmaxIdx (ResNet9.forward m.net (modeOf m) (draws p.2) p.1))
      let hits := (preds.zip b.2).countP (fun pr => pr.1 = pr.2)
      (acc.1 + hits, acc.2.1 + b.2.length, acc.2.2 + b.1.length))
    (0, 0, 0)

/-- Concrete instantiation of every learned block for the counterexamples:
the identity on activations. -/
def idNet : ResNet9 := ⟨id, id, id, id, id, id, id, id, id, id, id, id⟩

/-- Dropout draws that keep every activation. -/
def keepAll : DropMasks := ⟨[true, true], [true, true], [true, true], [true, true]⟩

/-- Dropout draws that zero every activation. -/
def dropAll : DropMasks := ⟨[false, false], [false, false], [false, false], [false, false]⟩

/-- C1 fails on the code: the notebook never takes the module out of
training mode (`torch.no_grad()` does not disable dropout and
`model.eval()` is never called), so the test-accuracy loop run twice over
the very same frozen module and the same fixed batch returns different
accuracy counts when the two runs' dropout draws differ: on the batch with
the single score vector `[1, 2]` labelled 1, all-keep draws classify it
correctly and all-drop draws do not. -/
theorem eval_twice_differs :
    moduleEvalPass (mkModel idNet) (fun _ => keepAll) [([[1, 2]], [1])]
      ≠ moduleEvalPass (mkModel idNet) (fun _ => dropAll) [([[1, 2]], [1])] := by
  norm_num [moduleEvalPass, mkModel, modeOf, idNet, keepAll, dropAll, ResNet9.forward,
    dropout, relu, addVec, argmaxIdx, argmaxAux, List.range', List.countP, List.countP.go,
    Prod.ext_iff]

/-- C2 fails on the code: the accuracy cells run every forward pass with
the module still in training mode, whatever the trained parameters are,
and in that mode the dropout layers are not pass-through: the forward pass
the loop actually performs differs from the inference-mode forward on a
concrete input, whereas in eval mode dropout is the identity. -/
theorem eval_mode_dropout_active :
    (∀ net trainedNet : ResNet9, modeOf (afterTraining (mkModel net) trainedNet) = Mode.train) ∧
    ResNet9.forward idNet Mode.train keepAll [1, 2]
      ≠ ResNet9.forward idNet Mode.eval keepAll [1, 2] ∧
    (∀ (p : ℚ) (mask : List Bool) (x : List ℚ), dropout p Mode.eval mask x = x) := by
  refine ⟨fun net trainedNet => rfl, ?_, fun p mask x => rfl⟩
  norm_num [idNet, keepAll, ResNet9.forward, dropout, relu, addVec]

/-- A raw CIFAR image as stored in `dataset.data`: 32 x 32 pixels, 3
channels, integer intensities in 0..255. -/
def Img8 : Type := Fin 32 → Fin 32 → Fin 3 → ℕ

/-- Sum of one channel over every pixel of every image of a split. -/
def pixelSum (data : List Img8) (c : Fin 3) : ℕ :=
  (data.map (fun im => ∑ i : Fin 32, ∑ j : Fin 32, im i j c)).sum

/-- Sum of squared channel values, for the variance. -/
def sqPixelSum (data : List Img8) (c : Fin 3) : ℕ :=
  (data.map (fun im => ∑ i : Fin 32, ∑ j : Fin 32, (im i j c) ^ 2)).sum

/-- Cell 6, `mean_std_set.data.mean(axis=(0,1,2)) / 255`: the channel mean
of the raw train pixels, scaled into the unit range. -/
def mean_trainset (data : List Img8) (c : Fin 3) : ℚ :=
  ((pixelSum data c : ℚ) / (data.length * 32 * 32)) / 255

/-- Population variance of the raw channel values (numpy `std` squared). -/
def var_trainset (data : List Img8) (c : Fin 3) : ℚ :=
  (sqPixelSum data c : ℚ) / (data.length * 32 * 32)
    - ((pixelSum data c : ℚ) / (data.length * 32 * 32)) ^ 2

/-- Cell 6, `mean_std_set.data.std(axis=(0,1,2)) / 255`: the channel
standard deviation of the raw train pixels, scaled into the unit range. -/
noncomputable def std_trainset (data : List Img8) (c : Fin 3) : ℝ :=
  Real.sqrt (var_trainset data c) / 255

/-- One torchvision transform of cell 7. -/
inductive TransformOp
  | randomCrop (size pad : ℕ)
  | randomHFlip
  | toTensor
  | normalize (mean : Fin 3 → ℚ) (std : Fin 3 → ℝ)

/-- `train_transform` of cell 7: reflection-padded random crop, random
horizontal flip, tensor conversion, then normalization with the fixed
train statistics. -/
noncomputable def train_transform (data : List Img8) : List TransformOp :=
  [TransformOp.randomCrop 32 4, TransformOp.randomHFlip, TransformOp.toTensor,
   TransformOp.normalize (mean_trainset data) (std_trainset data)]

/-- `test_transform` of cell 7: tensor conversion and the same
normalization, no augmentation. -/
noncomputable def test_transform (data : List Img8) : List TransformOp :=
  [TransformOp.toTensor, TransformOp.normalize (mean_trainset data) (std_trainset data)]

/-- The statistics a transform op applies, when it is a `Normalize`. -/
def normalizeStats : TransformOp → Option ((Fin 3 → ℚ) × (Fin 3 → ℝ))
  | TransformOp.normalize m s => some (m, s)
  | _ => none

/-- C7: for any raw train split, the train pipeline and the test pipeline
each contain exactly one normalization, and both use the identical pair of
per-channel vectors, the mean and standard deviation computed from the raw
(un-augmented) train pixels; the augmentation ops of the train pipeline
carry no statistics, so they cannot alter the pair. -/
theorem normalization_stats_shared (data : List Img8) :
    (train_transform data).filterMap normalizeStats
        = [(mean_trainset data, std_trainset data)] ∧
    (test_transform data).filterMap normalizeStats
        = [(mean_trainset data, std_trainset data)] ∧
    (train_transform data).filterMap normalizeStats
        = (test_transform data).filterMap normalizeStats := by
  refine ⟨?_, ?_, ?_⟩ <;>
    simp [train_transform, test_transform, normalizeStats, List.filterMap]

/-- Parameters drawn per sample by the random train augmentations of cell
7: the offset of the reflection-padded random crop and the coin of the
horizontal flip. -/
structure AugDraw where
  crop : ℕ × ℕ
  flip : Bool

/-- Application of `train_transform` to one raw image, over an abstract
image carrier: the reflection-padded random crop at the drawn offset, then
the horizontal flip exactly when the drawn coin says so, then the fixed
normalization. -/
def applyTrainTransform {α : Type} (cropF : ℕ × ℕ → α → α) (flipF : α → α)
    (normF : α → α) (d : AugDraw) (x : α) : α :=
  normF ((if d.flip then flipF else id) (cropF d.crop x))

/-- `DataLoader` batching: consecutive groups of `bs` samples, the last
one ragged. -/
def chunk {β : Type} (bs : ℕ) (l : List β) : List (List β) :=
  (List.range (numBatches l.length bs)).map (fun i => (l.drop (i * bs)).take bs)

/-- The items one pass over `trainloader` yields (cell 7): sample order
shuffled by this pass's permutation `perm` of positions, and every image
carries this pass's fresh per-sample augmentation draws. -/
def trainloaderItems {α : Type} (cropF : ℕ × ℕ → α → α) (flipF : α → α) (normF : α → α)
    (perm : ℕ → ℕ) (draw : ℕ → AugDraw) (data : ℕ → α × Fin 10) (n : ℕ) :
    List (α × Fin 10) :=
  (List.range n).map (fun k =>
    (applyTrainTransform cropF flipF normF (draw k) (data (perm k)).1, (data (perm k)).2))

/-- The body of the accuracy loops of cells 13/14 over a list of batches:
`total` grows by each batch's length and `correct` by its arg-max hits. -/
def accuracyFold {α : Type} (score : α → List ℚ) (batches : List (List (α × Fin 10))) :
    ℕ × ℕ :=
  batches.foldl
    (fun acc b =>
      let preds := b.map (fun smp => argmaxIdx (score smp.1))
      (acc.1 + ((preds.zip (b.map (fun smp => smp.2.val))).countP (fun pr => pr.1 = pr.2)),
       acc.2 + b.length))
    (0, 0)

/-- Cell 13: the reported train accuracy iterates `trainloader`, i.e. the
augmented shuffled pipeline batched at `batch_size`. -/
def trainAccuracyCounts {α : Type} (score : α → List ℚ) (cropF : ℕ × ℕ → α → α)
    (flipF : α → α) (normF : α → α) (perm : ℕ → ℕ) (draw : ℕ → AugDraw)
    (data : ℕ → α × Fin 10) (n : ℕ) : ℕ × ℕ :=
  accuracyFold score (chunk batch_size (trainloaderItems cropF flipF normF perm draw data n))

theorem flatten_chunk_aux {β : Type} (bs : ℕ) :
    ∀ (m : ℕ) (l : List β), l.length ≤ m * bs →
      ((List.range m).map (fun i => (l.drop (i * bs)).take bs)).flatten = l := by
  intro m
  induction m with
  | zero =>
      intro l h
      have : l = [] := List.eq_nil_of_length_eq_zero (by omega)
      subst this
      simp
  | succ m ih =>
      intro l h
      rw [List.range_succ_eq_map, List.map_cons, List.map_map, List.flatten_cons]
      have hmap : (List.range m).map ((fun i => (l.drop (i * bs)).take bs) ∘ Nat.succ)
          = (List.range m).map (fun i => ((l.drop bs).drop (i * bs)).take bs) := by
        congr 1
        funext i
        show (l.drop ((i + 1) * bs)).take bs = ((l.drop bs).drop (i * bs)).take bs
        rw [List.drop_drop]
        congr 2
        ring
      have hle : (l.drop bs).length ≤ m * bs := by
        rw [List.length_drop]
        have hexp : (m + 1) * bs = m * bs + bs := by ring
        omega
      rw [hmap, ih (l.drop bs) hle]
      simp

theorem length_le_numBatches_mul (n : ℕ) : n ≤ numBatches n 100 * 100 := by
  rw [numBatches]
  omega

theorem flatten_chunk_batch_size {β : Type} (l : List β) :
    (chunk batch_size l).flatten = l := by
  rw [chunk, batch_size]
  exact flatten_chunk_aux 100 (numBatches l.length 100) l
    (length_le_numBatches_mul l.length)

/-- C10: the train-accuracy figure of cell 13 is computed over the
augmented, shuffled train pipeline: its batches flatten back exactly to
the items of one `trainloader` pass, and every image it scores is a raw
train image at a shuffled position with that pass's random crop and random
flip applied before normalization — not the raw image itself. -/
theorem train_accuracy_over_augmented {α : Type} (score : α → List ℚ)
    (cropF : ℕ × ℕ → α → α) (flipF : α → α) (normF : α → α) (perm : ℕ → ℕ)
    (draw : ℕ → AugDraw) (data : ℕ → α × Fin 10) (n : ℕ) :
    trainAccuracyCounts score cropF flipF normF perm draw data n
        = accuracyFold score
            (chunk batch_size (trainloaderItems cropF flipF normF perm draw data n)) ∧
    (chunk batch_size (trainloaderItems cropF flipF normF perm draw data n)).flatten
        = trainloaderItems cropF flipF normF perm draw data n ∧
    (∀ smp ∈ trainloaderItems cropF flipF normF perm draw data n, ∃ k, k < n ∧
      smp.1 = normF ((if (draw k).flip then flipF else id)
        (cropF (draw k).crop (data (perm k)).1)) ∧
      smp.2 = (data (perm k)).2) := by
  refine ⟨rfl, flatten_chunk_batch_size _, ?_⟩
  intro smp hsmp
  rw [trainloaderItems, List.mem_map] at hsmp
  obtain ⟨k, hk, hval⟩ := hsmp
  exact ⟨k, List.mem_range.mp hk, by rw [← hval]; rfl, by rw [← hval]⟩

/-- Witness for C10 on a concrete one-sample pipeline over natural-number
images: the single scored image is the augmented raw image. -/
theorem train_accuracy_over_augmented_witness :
    (22, (0 : Fin 10)) ∈ trainloaderItems (fun _ x => x + 1) (fun x => x + 10)
        (fun x => x * 2) id (fun _ => ⟨(0, 0), true⟩) (fun _ => (0, 0)) 1 ∧
    ∃ k, k < 1 ∧
      (22 : ℕ) = (fun x => x * 2)
        ((if (true : Bool) then (fun x : ℕ => x + 10) else id) ((fun x : ℕ => x + 1) 0)) ∧
      (0 : Fin 10) = (0 : Fin 10) := by
  have hmem : ((22 : ℕ), (0 : Fin 10)) ∈ trainloaderItems (fun _ x => x + 1)
      (fun x => x + 10) (fun x => x * 2) id (fun _ => ⟨(0, 0), true⟩)
      (fun _ => (0, 0)) 1 := by
    simp [trainloaderItems, applyTrainTransform, List.range_succ]
  have h := (train_accuracy_over_augmented (fun _ => []) (fun _ x => x + 1)
    (fun x => x + 10) (fun x => x * 2) id (fun _ => ⟨(0, 0), true⟩)
    (fun _ => (0, 0)) 1).2.2 (22, (0 : Fin 10)) hmem
  obtain ⟨k, hk, hv, hl⟩ := h
  exact ⟨hmem, k, hk, hv, rfl⟩

end CIFAR
